import Mathlib

/-!
Shallow embedding of the holophyly fleet-reconciliation engine (Go sources:
internal/project/manager.go, internal/project/protected.go,
internal/scanner/finder.go, internal/scanner/patterns.go,
internal/docker/stats.go, internal/websocket/client.go,
internal/websocket/hub.go) together with proofs of the specified properties.

Modelling conventions:
* Go `string` is Lean `String` (Go byte-wise lexicographic order on UTF-8
  agrees with codepoint order, which is Lean's `String` order).
* Go maps are association lists; `mapInsert` models insert-or-overwrite and
  `List.lookup` models indexing.
* External collaborators (the docker daemon, external compose invocations,
  the preference store, the sha256 hash and filesystem path routines) enter
  as explicit inputs, so every function here is a pure function of its
  inputs exactly as the Go function is a function of the values those
  collaborators return.
* Go `float64` arithmetic in the stats engine is modelled by exact rational
  arithmetic; the claims proved about it concern sign tests and the algebraic
  shape of the formula, which rounding does not affect.  Go `uint64`
  subtraction wraps modulo 2^64; `u64sub` models it.
* `strings.ToLower` is modelled on ASCII (`toLowerRune`); the inputs the
  claims are settled on are ASCII.
-/

namespace Holophyly

/-- Go `model.ProjectStatus` is a string type. -/
abbrev ProjectStatus := String

def StatusRunning : ProjectStatus := "running"
def StatusStopped : ProjectStatus := "stopped"
def StatusPartial : ProjectStatus := "partial"
def StatusUnknown : ProjectStatus := "unknown"

/-- Go `model.ProtectionReason` is a string type. -/
abbrev ProtectionReason := String

def ProtectionCloudflareTunnel : ProtectionReason := "cloudflare_tunnel"
def ProtectionUserMarked : ProtectionReason := "user_marked"
def ProtectionAutoDetected : ProtectionReason := "auto_detected"

/-- Go `model.Container` (the fields the reconciler reads: identity, name,
image and coarse state; ports/labels/stats are never consulted by the
functions under proof and are omitted). -/
structure Container where
  ID : String
  Name : String
  Image : String
  State : String
deriving DecidableEq, Repr

/-- Go `model.Project` (the fields read or written by the manager, the
scanner cache and the sort; timestamps are not modelled). -/
structure Project where
  ID : String
  Name : String
  DisplayName : String
  Path : String
  ComposeFile : String
  ComposeFilePath : String
  Status : ProjectStatus
  Protected : Bool
  ProtectionReason : ProtectionReason
  Hidden : Bool
  Containers : List Container
  Services : List String
deriving DecidableEq, Repr

/-- Association-list model of a Go map: insert-or-overwrite. -/
def mapInsert {α : Type} (k : String) (v : α) (m : List (String × α)) :
    List (String × α) :=
  (k, v) :: m.filter (fun e => e.1 ≠ k)

/-- The `determineProjectStatus` from manager.go: count containers in the
running state and containers in a terminal state, then classify. -/
def determineProjectStatus (containers : List Container) : ProjectStatus :=
  if containers.length = 0 then
    StatusStopped
  else
    let running :=
      (containers.filter (fun c => c.State == "running")).length
    let stopped :=
      (containers.filter (fun c =>
        c.State == "exited" || c.State == "dead" || c.State == "created")).length
    if running = containers.length then StatusRunning
    else if stopped = containers.length then StatusStopped
    else StatusPartial

/-- A coarse state counted as terminal by `determineProjectStatus`. -/
def isTerminalState (s : String) : Bool :=
  s == "exited" || s == "dead" || s == "created"

end Holophyly

namespace Holophyly

/-! ### Stats engine (internal/docker/stats.go) -/

/-- Go `container.CPUUsage`: cumulative totals, per-CPU list. -/
structure CPUUsage where
  TotalUsage : Nat
  PercpuUsage : List Nat
deriving DecidableEq, Repr

/-- Go `container.CPUStats`. -/
structure CPUStats where
  CPUUsage : CPUUsage
  SystemUsage : Nat
  OnlineCPUs : Nat
deriving DecidableEq, Repr

/-- The part of Go `container.StatsResponse` read by
`calculateCPUPercent`. -/
structure StatsResponse where
  CPUStats : CPUStats
deriving DecidableEq, Repr

/-- Go `uint64` subtraction `a - b`, which wraps modulo 2^64. -/
def u64sub (a b : Nat) : Nat :=
  (a + 2 ^ 64 - b % 2 ^ 64) % 2 ^ 64

/-- The CPU-time delta computed by `calculateCPUPercent`:
`curr.CPUStats.CPUUsage.TotalUsage - prev.CPUStats.CPUUsage.TotalUsage`
as a `uint64`, then converted to a number. -/
def cpuDelta (prev curr : StatsResponse) : ℚ :=
  (u64sub curr.CPUStats.CPUUsage.TotalUsage prev.CPUStats.CPUUsage.TotalUsage : Nat)

/-- The system-time delta computed by `calculateCPUPercent`. -/
def systemDelta (prev curr : StatsResponse) : ℚ :=
  (u64sub curr.CPUStats.SystemUsage prev.CPUStats.SystemUsage : Nat)

/-- The online-CPU count with its two fallbacks: `curr.CPUStats.OnlineCPUs`,
then the length of the per-CPU usage list, then 1. -/
def onlineCPUCount (curr : StatsResponse) : ℚ :=
  if curr.CPUStats.OnlineCPUs ≠ 0 then (curr.CPUStats.OnlineCPUs : ℚ)
  else if curr.CPUStats.CPUUsage.PercpuUsage.length ≠ 0 then
    (curr.CPUStats.CPUUsage.PercpuUsage.length : ℚ)
  else 1

/-- The `calculateCPUPercent` from stats.go.  `prev = none` models the Go
`nil` previous sample.  Float arithmetic is modelled exactly over ℚ. -/
def calculateCPUPercent (prev : Option StatsResponse) (curr : StatsResponse) : ℚ :=
  match prev with
  | none => 0
  | some p =>
    if 0 < systemDelta p curr ∧ 0 < cpuDelta p curr then
      (cpuDelta p curr / systemDelta p curr) * onlineCPUCount curr * 100
    else 0

end Holophyly

namespace Holophyly

/-! ### WebSocket subscriptions (internal/websocket/client.go, hub.go) -/

/-- A connected client, reduced to the state the subscription logic reads:
its set of subscribed project identifiers (the Go map `subscriptions`,
whose stored values are always `true`). -/
structure WSClient where
  subscriptions : Finset String
deriving DecidableEq

/-- The `Client.Subscribe` from client.go: `c.subscriptions[projectID] = true`. -/
def Subscribe (subs : Finset String) (projectID : String) : Finset String :=
  insert projectID subs

/-- The `Client.Unsubscribe` from client.go: `delete(c.subscriptions, projectID)`. -/
def Unsubscribe (subs : Finset String) (projectID : String) : Finset String :=
  subs.erase projectID

/-- The `Client.IsSubscribed` from client.go: an empty subscription set matches
everything, otherwise membership decides. -/
def IsSubscribed (subs : Finset String) (projectID : String) : Bool :=
  if subs = ∅ then true
  else decide (projectID ∈ subs)

/-- The `Hub.BroadcastToSubscribers` from hub.go: the clients a message scoped
to `projectID` is handed to are exactly those whose `IsSubscribed` check
passes (delivery onto each bounded queue is best-effort and abstracted). -/
def BroadcastToSubscribers (clients : List WSClient) (projectID : String) :
    List WSClient :=
  clients.filter (fun c => IsSubscribed c.subscriptions projectID)

/-- Folding `Subscribe` over a list of project identifiers. -/
def subscribeAll (subs : Finset String) (ids : List String) : Finset String :=
  ids.foldl Subscribe subs

/-- Folding `Unsubscribe` over a list of project identifiers. -/
def unsubscribeAll (subs : Finset String) (ids : List String) : Finset String :=
  ids.foldl Unsubscribe subs

end Holophyly

namespace Holophyly

/-! ### Scanner: project-name sanitisation (internal/scanner/finder.go) -/

/-- The character class Go admits unchanged in `sanitizeProjectName`:
`a`-`z`, `0`-`9`, `-`, `_`. -/
def isAllowedRune (c : Char) : Bool :=
  ('a' ≤ c && c ≤ 'z') || ('0' ≤ c && c ≤ '9') || c = '-' || c = '_'

/-- A lowercase letter or digit (the class whose absence at position 0
triggers the `p-` reset in `sanitizeProjectName`). -/
def isAlnumRune (c : Char) : Bool :=
  ('a' ≤ c && c ≤ 'z') || ('0' ≤ c && c ≤ '9')

/-- An ASCII letter (either case) or digit; used to state the claim's
"first character is not a letter or digit". -/
def isLetterOrDigit (c : Char) : Bool :=
  ('a' ≤ c && c ≤ 'z') || ('A' ≤ c && c ≤ 'Z') || ('0' ≤ c && c ≤ '9')

/-- The `strings.ToLower` on one rune, modelled on ASCII: `A`-`Z` move down by
32, everything else is unchanged. -/
def toLowerRune (c : Char) : Char :=
  if 'A' ≤ c ∧ c ≤ 'Z' then Char.ofNat (c.toNat + 32) else c

/-- The `strings.ReplaceAll(name, ".", "-")`, character-wise. -/
def dotToDash (c : Char) : Char :=
  if c = '.' then '-' else c

/-- A member of the cutset `"-_"` of the final `strings.Trim`. -/
def isSepRune (c : Char) : Bool :=
  c = '-' || c = '_'

/-- Trimming the cutset `"-_"` from the right end only. -/
def rtrimSeps (l : List Char) : List Char :=
  (l.reverse.dropWhile isSepRune).reverse

/-- The `strings.Trim(s, "-_")`: drop cutset characters from both ends. -/
def trimSeps (l : List Char) : List Char :=
  rtrimSeps (l.dropWhile isSepRune)

/-- The builder loop of `sanitizeProjectName`: each rune is written mapped
into the allowed class (others become `-`); when the first rune is not a
lowercase letter or digit the builder is reset to `p-` right after that
first write. -/
def sanitizeBody : List Char → List Char
  | [] => []
  | r :: rest =>
    (if isAlnumRune r then [if isAllowedRune r then r else '-'] else ['p', '-'])
      ++ rest.map (fun c => if isAllowedRune c then c else '-')

/-- The `sanitizeProjectName` from finder.go: lowercase, turn dots into
dashes, run the builder loop, trim `-`/`_` from both ends, and replace an
empty result by the literal `project`.  `strings.ToLower` is modelled by
the ASCII `toLowerRune`. -/
def sanitizeProjectName (name : String) : String :=
  let trimmed := trimSeps (sanitizeBody ((name.data.map toLowerRune).map dotToDash))
  if trimmed = [] then "project" else String.mk trimmed

/-! ### Scanner: parse cache (internal/scanner/finder.go) -/

/-- The `CachedProject` from finder.go. -/
structure CachedProject where
  Project : Project
  ModTime : Nat
  CheckSum : String
deriving DecidableEq, Repr

/-- Outcome of attempting to load a candidate file as a compose
specification.  `ok` carries the `Project` the successful parse yields
(its construction from the path-derived name/identifier/environment and
the declared services happens inside this outcome); `noServices` is a file
that parses but declares zero services; `err` is a load failure. -/
inductive ParseOutcome where
  | err
  | noServices
  | ok (p : Project)
deriving DecidableEq, Repr

/-- Result of `parseComposeFile`: the returned value (`none` = error,
`some none` = not a compose file, `some (some p)` = project), the cache
after the call, and whether the file was actually re-parsed. -/
structure ParseReturn where
  value : Option (Option Project)
  cache : List (String × CachedProject)
  reparsed : Bool
deriving DecidableEq, Repr

/-- The non-cached tail of `parseComposeFile`: load the file and, on a
successful parse with at least one service, store the fresh cache entry. -/
def parseFresh (cache : List (String × CachedProject)) (path : String)
    (modTime : Nat) (checksum : String) (parse : ParseOutcome) : ParseReturn :=
  match parse with
  | .err => ⟨none, cache, true⟩
  | .noServices => ⟨some none, cache, true⟩
  | .ok p => ⟨some (some p), mapInsert path ⟨p, modTime, checksum⟩ cache, true⟩

/-- The `Scanner.parseComposeFile` from finder.go.  `modTime` and `checksum`
are the candidate file's current modification time and content checksum
(computed before the cache is consulted); a cache entry whose stored
modification time and checksum both match is returned without
re-parsing. -/
def parseComposeFile (cache : List (String × CachedProject)) (path : String)
    (modTime : Nat) (checksum : String) (parse : ParseOutcome) : ParseReturn :=
  match List.lookup path cache with
  | some cached =>
    if cached.ModTime = modTime ∧ cached.CheckSum = checksum then
      ⟨some (some cached.Project), cache, false⟩
    else
      parseFresh cache path modTime checksum parse
  | none => parseFresh cache path modTime checksum parse

end Holophyly

namespace Holophyly

/-! ### Protection heuristics (internal/scanner/patterns.go) -/

/-- The `strings.Contains l pat` on character lists. -/
def containsSub (pat : List Char) : List Char → Bool
  | [] => pat.isEmpty
  | c :: rest => List.isPrefixOf pat (c :: rest) || containsSub pat rest

/-- The `strings.Contains(s, pat)`. -/
def strContains (s pat : String) : Bool :=
  containsSub pat.data s.data

/-- The `strings.ToLower`, modelled on ASCII. -/
def strToLower (s : String) : String :=
  String.mk (s.data.map toLowerRune)

def cloudflarePatterns : List String :=
  ["cloudflare", "cloudflared", "cf-tunnel", "cftunnel", "tunnel", "argo"]

def criticalPatterns : List String :=
  ["traefik", "nginx-proxy", "reverse-proxy", "gateway", "ingress"]

/-- The `IsProtectedByPattern` from patterns.go: lowercase the name, check the
tunnel keyword list first, then the reverse-proxy/ingress keyword list;
within a list every hit returns the same reason, so `any` models the
first-hit loop. -/
def IsProtectedByPattern (name : String) : Bool × ProtectionReason :=
  let lower := strToLower name
  if cloudflarePatterns.any (fun pat => strContains lower pat) then
    (true, ProtectionCloudflareTunnel)
  else if criticalPatterns.any (fun pat => strContains lower pat) then
    (true, ProtectionAutoDetected)
  else
    (false, "")

end Holophyly

namespace Holophyly

/-! ### Fleet manager (internal/project/manager.go) -/

/-- In-memory preference record (display name and hidden flag) as
returned by the preference store. -/
structure ProjectPreference where
  DisplayName : String
  Hidden : Bool
deriving DecidableEq, Repr

/-- The inputs one `Manager.Refresh` pass consumes: the scan result, the
live containers grouped by compose-project name, the persisted
preferences (`none` when no store is configured), the resolved
compose-project name per definition-file path
(`docker.GetComposeProjectName`, an external compose invocation), and the
protection policy's path check (`ProtectionConfig.IsProtected`; the
constantly-false function models a `nil` policy). -/
structure RefreshEnv where
  scan : List Project
  containersByProject : List (String × List Container)
  prefs : Option (List (String × ProjectPreference))
  resolveName : String → String
  isProtectedPath : String → Bool

/-- The container loop of `Manager.applyProtection`: per container, check
the name and then the image against the protection heuristics; the first
hit yields its reason. -/
def findContainerProtection : List Container → Option ProtectionReason
  | [] => none
  | ctr :: rest =>
    let byName := IsProtectedByPattern ctr.Name
    if byName.1 then some byName.2
    else
      let byImage := IsProtectedByPattern ctr.Image
      if byImage.1 then some byImage.2
      else findContainerProtection rest

/-- The `Manager.applyProtection` from manager.go: an already-protected
project is returned unchanged; otherwise the policy path check and then
the per-container heuristics may set the flag and reason. -/
def applyProtection (isProtectedPath : String → Bool) (proj : Project) :
    Project :=
  if proj.Protected then proj
  else if isProtectedPath proj.Path then
    { proj with Protected := true, ProtectionReason := ProtectionUserMarked }
  else
    match findContainerProtection proj.Containers with
    | some reason => { proj with Protected := true, ProtectionReason := reason }
    | none => proj

/-- First step of the `Manager.Refresh` loop body: carry forward the
protection flag and reason from the existing in-memory entry, if any. -/
def mergeProtectionStep (old : List (String × Project)) (proj : Project) :
    Project :=
  match List.lookup proj.ID old with
  | some existing =>
    { proj with Protected := existing.Protected
                ProtectionReason := existing.ProtectionReason }
  | none => proj

/-- Second step: apply the persisted display-name/hidden preference, if a
store is configured and holds one for this identifier. -/
def mergePrefsStep (prefs : Option (List (String × ProjectPreference)))
    (proj : Project) : Project :=
  match prefs with
  | some prefs =>
    match List.lookup proj.ID prefs with
    | some pref =>
      { proj with DisplayName := pref.DisplayName, Hidden := pref.Hidden }
    | none => proj
  | none => proj

/-- Third step: attach the live containers found under the resolved
compose-project name and derive the aggregate status; with no matching
grouping the project is stopped with an empty container list. -/
def mergeContainersStep (env : RefreshEnv) (proj : Project) : Project :=
  match List.lookup (env.resolveName proj.ComposeFilePath)
      env.containersByProject with
  | some containers =>
    { proj with Containers := containers
                Status := determineProjectStatus containers }
  | none =>
    { proj with Status := StatusStopped, Containers := [] }

/-- The per-project body of the `Manager.Refresh` loop: the three merge
steps in source order followed by `applyProtection`. -/
def mergeScannedProject (env : RefreshEnv)
    (old : List (String × Project)) (proj : Project) : Project :=
  applyProtection env.isProtectedPath
    (mergeContainersStep env
      (mergePrefsStep env.prefs
        (mergeProtectionStep old proj)))

/-- The `Manager.Refresh` from manager.go: build `newProjects` from scratch by
folding the merge over the scan result, then atomically replace the
project map. -/
def Refresh (env : RefreshEnv) (old : List (String × Project)) :
    List (String × Project) :=
  env.scan.foldl
    (fun acc proj =>
      let merged := mergeScannedProject env old proj
      mapInsert merged.ID merged acc)
    []

/-- Any number of consecutive `Refresh` passes. -/
def RefreshPasses (envs : List RefreshEnv)
    (m0 : List (String × Project)) : List (String × Project) :=
  envs.foldl (fun m env => Refresh env m) m0

/-- The `Manager.SetProjectProtection` from manager.go: the explicit policy
action that toggles the protection flag (the reason is stored when
enabling and cleared when disabling). -/
def SetProjectProtection (m : List (String × Project)) (id : String)
    (prot : Bool) (reason : ProtectionReason) :
    List (String × Project) × Option String :=
  match List.lookup id m with
  | none => (m, some ("project not found: " ++ id))
  | some proj =>
    let proj :=
      { proj with Protected := prot
                  ProtectionReason := if prot then reason else "" }
    (mapInsert id proj m, none)

/-- Outcome of an external compose invocation (`docker.ComposeDown`,
`docker.ComposeRestart`): exit-zero success, or failure with captured
output. -/
inductive ComposeOutcome where
  | ok
  | fail (output : String)
deriving DecidableEq, Repr

/-- The error cases of the lifecycle operations. -/
inductive LifecycleError where
  | notFound (id : String)
  | protectionRefused (name : String) (reason : ProtectionReason)
  | composeFailed (output : String)
deriving DecidableEq, Repr

/-- Result of a lifecycle operation: the project map afterwards, the
returned error (if any), and whether the external compose subcommand was
invoked at all. -/
structure LifecycleResult where
  projects : List (String × Project)
  error : Option LifecycleError
  composeInvoked : Bool
deriving DecidableEq, Repr

/-- The inputs of a targeted refresh (`Manager.refreshProject`): the live
container grouping and the resolved compose-project name. -/
structure TargetedRefreshEnv where
  containersByProject : List (String × List Container)
  resolveName : String → String

/-- The `Manager.refreshProject` from manager.go: re-attach the one project's
live containers and recompute its status; a vanished project is left
alone. -/
def refreshProject (env : TargetedRefreshEnv)
    (m : List (String × Project)) (id : String) : List (String × Project) :=
  match List.lookup id m with
  | none => m
  | some proj =>
    let projectName := env.resolveName proj.ComposeFilePath
    let proj :=
      match List.lookup projectName env.containersByProject with
      | some containers =>
        { proj with Containers := containers
                    Status := determineProjectStatus containers }
      | none =>
        { proj with Containers := [], Status := StatusStopped }
    mapInsert id proj m

/-- The `Manager.StopProject` from manager.go: refuse a protected project
unless forced; otherwise invoke `docker compose down` and, on success,
perform a targeted refresh. -/
def StopProject (m : List (String × Project)) (id : String) (force : Bool)
    (down : ComposeOutcome) (post : TargetedRefreshEnv) : LifecycleResult :=
  match List.lookup id m with
  | none => ⟨m, some (.notFound id), false⟩
  | some proj =>
    if proj.Protected && !force then
      ⟨m, some (.protectionRefused proj.Name proj.ProtectionReason), false⟩
    else
      match down with
      | .fail output => ⟨m, some (.composeFailed output), true⟩
      | .ok => ⟨refreshProject post m id, none, true⟩

/-- The `Manager.RestartProject` from manager.go: a protected project is
refused unconditionally — the signature has no force flag; otherwise
invoke `docker compose restart` and, on success, targeted-refresh. -/
def RestartProject (m : List (String × Project)) (id : String)
    (restart : ComposeOutcome) (post : TargetedRefreshEnv) : LifecycleResult :=
  match List.lookup id m with
  | none => ⟨m, some (.notFound id), false⟩
  | some proj =>
    if proj.Protected then
      ⟨m, some (.protectionRefused proj.Name proj.ProtectionReason), false⟩
    else
      match restart with
      | .fail output => ⟨m, some (.composeFailed output), true⟩
      | .ok => ⟨refreshProject post m id, none, true⟩

/-- Outcome of a preference-store call as seen by the manager: `none`
models a `nil` store (persistence skipped), `some (Except.ok ())` a
successful write, `some (Except.error e)` a persistence failure. -/
abbrev StoreCall := Option (Except String Unit)

/-- The `Manager.SetProjectDisplayName` from manager.go: persist first; a
persistence failure returns the error before the in-memory field is
touched. -/
def SetProjectDisplayName (m : List (String × Project))
    (id displayName : String) (storeCall : StoreCall) :
    List (String × Project) × Option String :=
  match List.lookup id m with
  | none => (m, some ("project not found: " ++ id))
  | some proj =>
    match storeCall with
    | some (Except.error e) => (m, some ("saving display name: " ++ e))
    | _ => (mapInsert id { proj with DisplayName := displayName } m, none)

/-- The `Manager.SetProjectHidden` from manager.go: persist first; a
persistence failure returns the error before the in-memory field is
touched. -/
def SetProjectHidden (m : List (String × Project))
    (id : String) (hidden : Bool) (storeCall : StoreCall) :
    List (String × Project) × Option String :=
  match List.lookup id m with
  | none => (m, some ("project not found: " ++ id))
  | some proj =>
    match storeCall with
    | some (Except.error e) => (m, some ("saving hidden status: " ++ e))
    | _ => (mapInsert id { proj with Hidden := hidden } m, none)

/-! ### `Manager.ListProjects` and its O(n²) exchange sort -/

/-- The swap test of the nested loops in `Manager.ListProjects`: entry `a`
(at the lower index) is out of order with `b` when `a.Name > b.Name`, or
the names are equal and `a.ComposeFile > b.ComposeFile`. -/
def swapNeeded (a b : Project) : Bool :=
  decide (b.Name < a.Name) ||
    (decide (a.Name = b.Name) && decide (b.ComposeFile < a.ComposeFile))

/-- One inner loop of the exchange sort: thread the element at index `i`
through the elements after it, swapping whenever the carried element is
out of order; returns the final element at index `i` and the reordered
remainder (whose length is unchanged, which drives termination of
`exchangeSort`). -/
def bubble (x : Project) :
    (ys : List Project) → Project × { l : List Project // l.length = ys.length }
  | [] => (x, ⟨[], rfl⟩)
  | y :: ys =>
    if swapNeeded x y then
      let r := bubble y ys
      (r.1, ⟨x :: r.2.1, by simp [r.2.2]⟩)
    else
      let r := bubble x ys
      (r.1, ⟨y :: r.2.1, by simp [r.2.2]⟩)

/-- The full nested-loop sort of `Manager.ListProjects`. -/
def exchangeSort : List Project → List Project
  | [] => []
  | x :: xs =>
    let r := bubble x xs
    r.1 :: exchangeSort r.2.1
termination_by l => l.length
decreasing_by
  exact lt_of_eq_of_lt (bubble _ _).2.2 (Nat.lt_succ_self _)

/-- The `Manager.ListProjects` from manager.go: collect the map's values (in
whatever iteration order the runtime map produces — the argument) and
sort them with the nested-loop exchange sort. -/
def ListProjects (projects : List Project) : List Project :=
  exchangeSort projects

/-- The two-key ordering the sort is specified to produce: ascending by
name, ties broken ascending by definition-file name. -/
def projLe (a b : Project) : Prop :=
  a.Name < b.Name ∨ (a.Name = b.Name ∧ a.ComposeFile ≤ b.ComposeFile)

end Holophyly

namespace Holophyly

/-! ### Concrete demo values used by witnesses -/

/-- A concrete discovered project as the scanner would produce it. -/
def demoProject : Project :=
  ⟨"a1b2", "web", "", "/srv/web", "compose.yml", "/srv/web/compose.yml",
    StatusUnknown, false, "", false, [], ["app"]⟩

/-- The same project explicitly marked protected. -/
def demoProtectedProject : Project :=
  { demoProject with Protected := true
                     ProtectionReason := ProtectionUserMarked }

end Holophyly

namespace Holophyly

/-! ## Theorems -/

/-- Indexing a freshly inserted key finds the fresh value. -/
theorem lookup_mapInsert_self {α : Type} (k : String) (v : α)
    (m : List (String × α)) :
    List.lookup k (mapInsert k v m) = some v := by
  simp [mapInsert, List.lookup]

/-- Dropping the entries of one other key does not change a lookup. -/
theorem lookup_filter_ne {α : Type} {k k' : String} (h : k' ≠ k)
    (m : List (String × α)) :
    List.lookup k' (m.filter (fun e => e.1 ≠ k)) = List.lookup k' m := by
  induction m with
  | nil => rfl
  | cons a t ih =>
    obtain ⟨a1, a2⟩ := a
    by_cases ha : a1 = k
    · subst ha
      have hne : (k' == a1) = false := beq_eq_false_iff_ne.mpr h
      simp only [List.filter_cons, List.lookup, hne]
      rw [if_neg (by simp)]
      simpa using ih
    · cases hk : k' == a1 with
      | true => simp [List.filter_cons, ha, List.lookup, hk]
      | false =>
        simp only [List.filter_cons]
        rw [if_pos (by simpa using ha)]
        simp only [List.lookup, hk]
        simpa using ih

/-- Indexing any other key is unaffected by an insert. -/
theorem lookup_mapInsert_ne {α : Type} {k k' : String} (h : k' ≠ k) (v : α)
    (m : List (String × α)) :
    List.lookup k' (mapInsert k v m) = List.lookup k' m := by
  have hne : (k' == k) = false := beq_eq_false_iff_ne.mpr h
  simp only [mapInsert, List.lookup, hne]
  exact lookup_filter_ne h m

/-- Claim C3: the per-project status function over the list of its
containers' coarse states satisfies: empty list yields stopped; a
non-empty all-running list yields running; a non-empty list of only
terminal states (exited, dead, created) yields stopped; every other
non-empty mixture — in particular one containing at least one running and
at least one terminal container — yields partial. -/
theorem determineProjectStatus_spec (l : List Container) :
    (l = [] → determineProjectStatus l = StatusStopped) ∧
    (l ≠ [] → (∀ c ∈ l, c.State = "running") →
      determineProjectStatus l = StatusRunning) ∧
    (l ≠ [] → (∀ c ∈ l, isTerminalState c.State = true) →
      determineProjectStatus l = StatusStopped) ∧
    (l ≠ [] → ¬ (∀ c ∈ l, c.State = "running") →
      ¬ (∀ c ∈ l, isTerminalState c.State = true) →
      determineProjectStatus l = StatusPartial) := by
  refine ⟨?_, ?_, ?_, ?_⟩
  · intro h; subst h; rfl
  · intro hne hall
    have h0 : ¬ l.length = 0 := by simpa [List.length_eq_zero] using hne
    have hlen : (l.filter (fun c => c.State == "running")).length = l.length :=
      List.filter_length_eq_length.mpr (by intro a ha; simpa using hall a ha)
    simp [determineProjectStatus, h0, hlen]
  · intro hne hall
    have h0 : ¬ l.length = 0 := by simpa [List.length_eq_zero] using hne
    have hlen :
        (l.filter (fun c =>
          c.State == "exited" || c.State == "dead" || c.State == "created")).length
          = l.length :=
      List.filter_length_eq_length.mpr (by
        intro a ha
        simpa [isTerminalState] using hall a ha)
    have hrun :
        ¬ (l.filter (fun c => c.State == "running")).length = l.length := by
      intro heq
      obtain ⟨c, hc⟩ := List.exists_mem_of_ne_nil l hne
      have h1 : c.State = "running" := by
        simpa using List.filter_length_eq_length.mp heq c hc
      have h2 := hall c hc
      rw [h1] at h2
      exact absurd h2 (by decide)
    simp [determineProjectStatus, h0, hrun, hlen]
  · intro hne hnr hnt
    have h0 : ¬ l.length = 0 := by simpa [List.length_eq_zero] using hne
    have hrun :
        ¬ (l.filter (fun c => c.State == "running")).length = l.length := by
      intro heq
      exact hnr (by
        intro a ha
        simpa using List.filter_length_eq_length.mp heq a ha)
    have hstop :
        ¬ (l.filter (fun c =>
          c.State == "exited" || c.State == "dead" || c.State == "created")).length
          = l.length := by
      intro heq
      exact hnt (by
        intro a ha
        simpa [isTerminalState] using List.filter_length_eq_length.mp heq a ha)
    simp [determineProjectStatus, h0, hrun, hstop]

/-- Witness for C3: the four cases of the status machine exercised on
concrete container lists. -/
theorem determineProjectStatus_spec_witness :
    determineProjectStatus [] = StatusStopped ∧
    determineProjectStatus [⟨"1", "web", "img", "running"⟩] = StatusRunning ∧
    determineProjectStatus [⟨"2", "db", "img", "exited"⟩] = StatusStopped ∧
    determineProjectStatus
      [⟨"1", "web", "img", "running"⟩, ⟨"2", "db", "img", "exited"⟩]
      = StatusPartial := by
  refine ⟨(determineProjectStatus_spec []).1 rfl, ?_, ?_, ?_⟩
  · exact (determineProjectStatus_spec _).2.1 (by decide) (by decide)
  · exact (determineProjectStatus_spec _).2.2.1 (by decide) (by decide)
  · exact (determineProjectStatus_spec _).2.2.2 (by decide) (by decide) (by decide)

end Holophyly

namespace Holophyly

/-- Claim C4: the derived CPU percent is exactly 0 without a previous
sample; exactly 0 whenever the system-time delta (as the code computes it,
a wrapping uint64 difference, hence never negative) is non-positive,
regardless of the CPU-time delta; and otherwise, when both deltas are
positive, equals (CPU-time delta / system-time delta) × online-CPU-count
× 100, where the online-CPU count falls back to the length of the per-CPU
usage list and then to 1 when unreported. -/
theorem calculateCPUPercent_spec :
    (∀ curr, calculateCPUPercent none curr = 0) ∧
    (∀ prev curr, systemDelta prev curr ≤ 0 →
      calculateCPUPercent (some prev) curr = 0) ∧
    (∀ prev curr, 0 < systemDelta prev curr → 0 < cpuDelta prev curr →
      calculateCPUPercent (some prev) curr =
        cpuDelta prev curr / systemDelta prev curr * onlineCPUCount curr * 100) ∧
    (∀ curr, curr.CPUStats.OnlineCPUs ≠ 0 →
      onlineCPUCount curr = curr.CPUStats.OnlineCPUs) ∧
    (∀ curr, curr.CPUStats.OnlineCPUs = 0 →
      curr.CPUStats.CPUUsage.PercpuUsage.length ≠ 0 →
      onlineCPUCount curr = curr.CPUStats.CPUUsage.PercpuUsage.length) ∧
    (∀ curr, curr.CPUStats.OnlineCPUs = 0 →
      curr.CPUStats.CPUUsage.PercpuUsage.length = 0 →
      onlineCPUCount curr = 1) := by
  refine ⟨fun curr => rfl, ?_, ?_, ?_, ?_, ?_⟩
  · intro prev curr h
    have : ¬ (0 < systemDelta prev curr ∧ 0 < cpuDelta prev curr) := by
      rintro ⟨h1, -⟩; linarith
    simp [calculateCPUPercent, this]
  · intro prev curr h1 h2
    simp [calculateCPUPercent, h1, h2]
  · intro curr h; simp [onlineCPUCount, h]
  · intro curr h1 h2; simp [onlineCPUCount, h1, h2]
  · intro curr h1 h2; simp [onlineCPUCount, h1, h2]

/-- Witness for C4: concrete counter samples exercising the no-previous
case, the zero-system-delta case, the main formula and the fallbacks. -/
theorem calculateCPUPercent_spec_witness :
    calculateCPUPercent none ⟨⟨⟨5, []⟩, 9, 0⟩⟩ = 0 ∧
    calculateCPUPercent (some ⟨⟨⟨5, []⟩, 9, 0⟩⟩) ⟨⟨⟨7, []⟩, 9, 0⟩⟩ = 0 ∧
    calculateCPUPercent (some ⟨⟨⟨100, []⟩, 1000, 2⟩⟩) ⟨⟨⟨200, []⟩, 2000, 2⟩⟩
      = 20 ∧
    onlineCPUCount ⟨⟨⟨0, [1, 2, 3]⟩, 0, 0⟩⟩ = 3 ∧
    onlineCPUCount ⟨⟨⟨0, []⟩, 0, 0⟩⟩ = 1 := by
  refine ⟨calculateCPUPercent_spec.1 _, ?_, ?_, ?_, ?_⟩
  · exact calculateCPUPercent_spec.2.1 _ _ (by
      norm_num [systemDelta, u64sub])
  · rw [calculateCPUPercent_spec.2.2.1 _ _
      (by norm_num [systemDelta, u64sub]) (by norm_num [cpuDelta, u64sub])]
    norm_num [systemDelta, cpuDelta, onlineCPUCount, u64sub]
  · exact calculateCPUPercent_spec.2.2.2.2.1 _ rfl (by norm_num)
  · exact calculateCPUPercent_spec.2.2.2.2.2 _ rfl rfl

end Holophyly

namespace Holophyly

/-- Claim C9: a client whose subscription set is empty receives every
broadcast, including broadcasts scoped to any project identifier; a
client subscribed to only project X does not receive a broadcast scoped
to a different project Y; in general a scoped broadcast reaches exactly
the clients whose `IsSubscribed` check passes. -/
theorem subscription_filtering (clients : List WSClient) (c : WSClient)
    (pid X Y : String) :
    (c.subscriptions = ∅ → IsSubscribed c.subscriptions pid = true) ∧
    (c.subscriptions = ∅ → c ∈ clients →
      c ∈ BroadcastToSubscribers clients pid) ∧
    (c.subscriptions = {X} → Y ≠ X →
      c ∉ BroadcastToSubscribers clients Y) ∧
    (c ∈ BroadcastToSubscribers clients pid ↔
      c ∈ clients ∧ IsSubscribed c.subscriptions pid = true) := by
  refine ⟨?_, ?_, ?_, ?_⟩
  · intro h; simp [IsSubscribed, h]
  · intro h hc
    exact List.mem_filter.mpr ⟨hc, by simp [IsSubscribed, h]⟩
  · intro h hY hmem
    have := (List.mem_filter.mp hmem).2
    rw [h] at this
    simp [IsSubscribed, Finset.singleton_ne_empty] at this
    exact hY this
  · exact List.mem_filter

/-- Witness for C9: two concrete clients, one with no subscriptions and
one subscribed only to project X; a broadcast scoped to Y reaches exactly
the first. -/
theorem subscription_filtering_witness :
    IsSubscribed (∅ : Finset String) "Y" = true ∧
    (⟨∅⟩ : WSClient) ∈ BroadcastToSubscribers [⟨∅⟩, ⟨{"X"}⟩] "Y" ∧
    (⟨{"X"}⟩ : WSClient) ∉ BroadcastToSubscribers [⟨∅⟩, ⟨{"X"}⟩] "Y" := by
  refine ⟨(subscription_filtering [] ⟨∅⟩ "Y" "X" "Y").1 rfl, ?_, ?_⟩
  · exact (subscription_filtering [⟨∅⟩, ⟨{"X"}⟩] ⟨∅⟩ "Y" "X" "Y").2.1
      rfl (by decide)
  · exact (subscription_filtering [⟨∅⟩, ⟨{"X"}⟩] ⟨{"X"}⟩ "Y" "X" "Y").2.2.1
      rfl (by decide)

/-- The `unsubscribeAll` removes exactly the listed identifiers. -/
theorem unsubscribeAll_eq (ids : List String) (s : Finset String) :
    unsubscribeAll s ids = s \ ids.toFinset := by
  induction ids generalizing s with
  | nil => simp [unsubscribeAll]
  | cons a t ih =>
    show unsubscribeAll (Unsubscribe s a) t = _
    rw [ih]
    ext x
    simp [Unsubscribe, Finset.mem_sdiff, Finset.mem_erase, List.mem_toFinset]
    tauto

/-- The `subscribeAll` only adds the listed identifiers. -/
theorem subscribeAll_subset (ids : List String) (s : Finset String) :
    subscribeAll s ids ⊆ s ∪ ids.toFinset := by
  induction ids generalizing s with
  | nil => simp [subscribeAll]
  | cons a t ih =>
    show subscribeAll (Subscribe s a) t ⊆ _
    refine (ih (Subscribe s a)).trans ?_
    intro x hx
    rcases Finset.mem_union.mp hx with hx | hx
    · rcases Finset.mem_insert.mp hx with rfl | hx
      · simp
      · exact Finset.mem_union.mpr (Or.inl hx)
    · simp [hx]

/-- Claim C10: the empty subscription set is a reversible sentinel — after
subscribing to one or more project identifiers and then unsubscribing
from all of them, `IsSubscribed` returns true for every project
identifier again. -/
theorem empty_subscription_sentinel (ids : List String) (pid : String)
    (h : ids ≠ []) :
    IsSubscribed (unsubscribeAll (subscribeAll ∅ ids) ids) pid = true := by
  have hsub : subscribeAll ∅ ids ⊆ ids.toFinset := by
    have := subscribeAll_subset ids ∅
    simpa using this
  have hempty : unsubscribeAll (subscribeAll ∅ ids) ids = ∅ := by
    rw [unsubscribeAll_eq]
    exact Finset.sdiff_eq_empty_iff_subset.mpr hsub
  simp [IsSubscribed, hempty]

/-- Witness for C10: subscribe to X and Y, unsubscribe from both, and a
broadcast scoped to Z matches again. -/
theorem empty_subscription_sentinel_witness :
    IsSubscribed (unsubscribeAll (subscribeAll ∅ ["X", "Y"]) ["X", "Y"]) "Z"
      = true :=
  empty_subscription_sentinel ["X", "Y"] "Z" (by decide)

end Holophyly

namespace Holophyly

/-- Claim C2: on a protected project, `StopProject` without force returns
the protection error with the map untouched and no compose invocation;
`StopProject` with force proceeds to attempt the compose down invocation;
`RestartProject` is refused unconditionally — its signature has no force
flag and any invocation on a protected project returns the protection
error with no compose invocation. -/
theorem stop_restart_protection (m : List (String × Project)) (id : String)
    (p : Project) (down restart : ComposeOutcome) (post : TargetedRefreshEnv)
    (hlookup : List.lookup id m = some p) (hprot : p.Protected = true) :
    StopProject m id false down post =
      ⟨m, some (.protectionRefused p.Name p.ProtectionReason), false⟩ ∧
    (StopProject m id true down post).composeInvoked = true ∧
    RestartProject m id restart post =
      ⟨m, some (.protectionRefused p.Name p.ProtectionReason), false⟩ := by
  refine ⟨?_, ?_, ?_⟩
  · simp [StopProject, hlookup, hprot]
  · cases down <;> simp [StopProject, hlookup, hprot]
  · simp [RestartProject, hlookup, hprot]

/-- Witness for C2: a concrete protected project is refused without force
(map unchanged, nothing invoked), stop with force reaches the compose
invocation, and restart is refused. -/
theorem stop_restart_protection_witness :
    StopProject [("a1b2", demoProtectedProject)] "a1b2" false .ok
      ⟨[], fun _ => "web"⟩ =
      ⟨[("a1b2", demoProtectedProject)],
        some (.protectionRefused "web" ProtectionUserMarked), false⟩ ∧
    (StopProject [("a1b2", demoProtectedProject)] "a1b2" true .ok
      ⟨[], fun _ => "web"⟩).composeInvoked = true ∧
    RestartProject [("a1b2", demoProtectedProject)] "a1b2" .ok
      ⟨[], fun _ => "web"⟩ =
      ⟨[("a1b2", demoProtectedProject)],
        some (.protectionRefused "web" ProtectionUserMarked), false⟩ := by
  have h := stop_restart_protection [("a1b2", demoProtectedProject)] "a1b2"
    demoProtectedProject .ok .ok ⟨[], fun _ => "web"⟩ (by rfl) (by rfl)
  exact ⟨h.1, h.2.1, h.2.2⟩

/-- Claim C8: a preference-store failure makes `SetProjectDisplayName`
(resp. `SetProjectHidden`) return an error with the in-memory project map
unchanged; the in-memory field is updated only when persistence
succeeds. -/
theorem preference_mutation_atomic (m : List (String × Project))
    (id dn : String) (hd : Bool) (p : Project) (e : String)
    (hlookup : List.lookup id m = some p) :
    SetProjectDisplayName m id dn (some (Except.error e)) =
      (m, some ("saving display name: " ++ e)) ∧
    SetProjectHidden m id hd (some (Except.error e)) =
      (m, some ("saving hidden status: " ++ e)) ∧
    SetProjectDisplayName m id dn (some (Except.ok ())) =
      (mapInsert id { p with DisplayName := dn } m, none) ∧
    SetProjectHidden m id hd (some (Except.ok ())) =
      (mapInsert id { p with Hidden := hd } m, none) := by
  refine ⟨?_, ?_, ?_, ?_⟩ <;>
    simp [SetProjectDisplayName, SetProjectHidden, hlookup]

/-- Witness for C8: a failing store call leaves the concrete map
unchanged and surfaces the error; a succeeding one updates the field. -/
theorem preference_mutation_atomic_witness :
    SetProjectDisplayName [("a1b2", demoProject)] "a1b2" "My App"
      (some (Except.error "disk full")) =
      ([("a1b2", demoProject)], some "saving display name: disk full") ∧
    SetProjectHidden [("a1b2", demoProject)] "a1b2" true
      (some (Except.error "disk full")) =
      ([("a1b2", demoProject)], some "saving hidden status: disk full") ∧
    SetProjectDisplayName [("a1b2", demoProject)] "a1b2" "My App"
      (some (Except.ok ())) =
      (mapInsert "a1b2" { demoProject with DisplayName := "My App" }
        [("a1b2", demoProject)], none) := by
  have h := preference_mutation_atomic [("a1b2", demoProject)] "a1b2"
    "My App" true demoProject "disk full" (by rfl)
  exact ⟨h.1, h.2.1, h.2.2.1⟩

end Holophyly

namespace Holophyly

/-- Counterexample for C5 as stated: with a cache entry whose stored
modification time (0) and checksum ("sumA") both differ from the file's
current state (1, "sumB"), a rescan does re-parse, but when the re-parse
fails the cache entry is NOT replaced — the stale entry survives. -/
theorem parseComposeFile_cex :
    (parseComposeFile [("f.yml", ⟨demoProject, 0, "sumA"⟩)] "f.yml" 1 "sumB"
      .err).reparsed = true ∧
    (parseComposeFile [("f.yml", ⟨demoProject, 0, "sumA"⟩)] "f.yml" 1 "sumB"
      .err).cache = [("f.yml", ⟨demoProject, 0, "sumA"⟩)] ∧
    (0 : Nat) ≠ 1 ∧ "sumA" ≠ "sumB" := by
  refine ⟨rfl, rfl, by decide, by decide⟩

/-- Claim C5 (amended): a cache entry whose stored modification time and
checksum both equal the file's current ones makes a rescan return the
identical cached Project without re-parsing and with the cache untouched;
if either differs the file is re-parsed, and the cache entry is replaced
when that re-parse succeeds with at least one service (on a failed or
zero-service re-parse the stale entry is retained). -/
theorem parseComposeFile_spec (cache : List (String × CachedProject))
    (path : String) (mt : Nat) (cs : String) (parse : ParseOutcome)
    (entry : CachedProject) (p : Project) :
    (List.lookup path cache = some entry → entry.ModTime = mt →
      entry.CheckSum = cs →
      parseComposeFile cache path mt cs parse =
        ⟨some (some entry.Project), cache, false⟩) ∧
    ((∀ e, List.lookup path cache = some e →
        ¬ (e.ModTime = mt ∧ e.CheckSum = cs)) →
      (parseComposeFile cache path mt cs parse).reparsed = true) ∧
    ((∀ e, List.lookup path cache = some e →
        ¬ (e.ModTime = mt ∧ e.CheckSum = cs)) →
      parse = .ok p →
      List.lookup path (parseComposeFile cache path mt cs parse).cache =
        some ⟨p, mt, cs⟩) := by
  refine ⟨?_, ?_, ?_⟩
  · intro h h1 h2
    simp [parseComposeFile, h, h1, h2]
  · intro hm
    unfold parseComposeFile
    cases hl : List.lookup path cache with
    | none => cases parse <;> simp [parseFresh]
    | some e =>
      cases parse <;> simp [parseFresh, hm e hl]
  · intro hm hp
    subst hp
    unfold parseComposeFile
    cases hl : List.lookup path cache with
    | none => simp [parseFresh, lookup_mapInsert_self]
    | some e =>
      simp [parseFresh, hm e hl, lookup_mapInsert_self]

/-- Witness for C5 (amended): a matching entry is served from the cache
without re-parsing; a mismatched entry is re-parsed and, on a successful
parse, the stored entry carries the new modification time and checksum. -/
theorem parseComposeFile_spec_witness :
    parseComposeFile [("f.yml", ⟨demoProject, 0, "sumA"⟩)] "f.yml" 0 "sumA"
      .err = ⟨some (some demoProject),
        [("f.yml", ⟨demoProject, 0, "sumA"⟩)], false⟩ ∧
    List.lookup "f.yml"
      (parseComposeFile [("f.yml", ⟨demoProject, 0, "sumA"⟩)] "f.yml" 1 "sumB"
        (.ok demoProject)).cache = some ⟨demoProject, 1, "sumB"⟩ := by
  constructor
  · exact (parseComposeFile_spec [("f.yml", ⟨demoProject, 0, "sumA"⟩)]
      "f.yml" 0 "sumA" .err ⟨demoProject, 0, "sumA"⟩ demoProject).1
      (by rfl) (by rfl) (by rfl)
  · exact (parseComposeFile_spec [("f.yml", ⟨demoProject, 0, "sumA"⟩)]
      "f.yml" 1 "sumB" (.ok demoProject) ⟨demoProject, 0, "sumA"⟩
      demoProject).2.2 (by decide) (by rfl)

end Holophyly

namespace Holophyly

/-- An already-protected project passes `applyProtection` unchanged (the
early return). -/
theorem applyProtection_of_protected (f : String → Bool) {p : Project}
    (hp : p.Protected = true) : applyProtection f p = p := by
  simp [applyProtection, hp]

/-- The `applyProtection` never changes the project identifier. -/
theorem applyProtection_ID (f : String → Bool) (p : Project) :
    (applyProtection f p).ID = p.ID := by
  unfold applyProtection
  repeat' split
  all_goals rfl

/-- The protection-carry step never changes the identifier. -/
theorem mergeProtectionStep_ID (old : List (String × Project))
    (proj : Project) : (mergeProtectionStep old proj).ID = proj.ID := by
  unfold mergeProtectionStep
  split <;> rfl

/-- The preference step never changes the identifier, protection flag or
protection reason. -/
theorem mergePrefsStep_fields
    (prefs : Option (List (String × ProjectPreference))) (proj : Project) :
    (mergePrefsStep prefs proj).ID = proj.ID ∧
    (mergePrefsStep prefs proj).Protected = proj.Protected ∧
    (mergePrefsStep prefs proj).ProtectionReason = proj.ProtectionReason := by
  unfold mergePrefsStep
  repeat' split
  all_goals exact ⟨rfl, rfl, rfl⟩

/-- The container step never changes the identifier, protection flag or
protection reason. -/
theorem mergeContainersStep_fields (env : RefreshEnv) (proj : Project) :
    (mergeContainersStep env proj).ID = proj.ID ∧
    (mergeContainersStep env proj).Protected = proj.Protected ∧
    (mergeContainersStep env proj).ProtectionReason
      = proj.ProtectionReason := by
  unfold mergeContainersStep
  split
  all_goals exact ⟨rfl, rfl, rfl⟩

/-- The refresh merge never changes the project identifier. -/
theorem mergeScannedProject_ID (env : RefreshEnv)
    (old : List (String × Project)) (proj : Project) :
    (mergeScannedProject env old proj).ID = proj.ID := by
  unfold mergeScannedProject
  rw [applyProtection_ID, (mergeContainersStep_fields ..).1,
    (mergePrefsStep_fields ..).1, mergeProtectionStep_ID]

/-- When the old map holds a protected entry under the scanned project's
identifier, the merged project is protected with the carried reason. -/
theorem mergeScannedProject_protected (env : RefreshEnv)
    (old : List (String × Project)) (proj ex : Project)
    (h : List.lookup proj.ID old = some ex) (hp : ex.Protected = true) :
    (mergeScannedProject env old proj).Protected = true ∧
    (mergeScannedProject env old proj).ProtectionReason
      = ex.ProtectionReason := by
  have hstep : (mergeProtectionStep old proj).Protected = true ∧
      (mergeProtectionStep old proj).ProtectionReason
        = ex.ProtectionReason := by
    unfold mergeProtectionStep
    simp [h, hp]
  have hQ :
      (mergeContainersStep env
        (mergePrefsStep env.prefs (mergeProtectionStep old proj))).Protected
        = true ∧
      (mergeContainersStep env
        (mergePrefsStep env.prefs
          (mergeProtectionStep old proj))).ProtectionReason
        = ex.ProtectionReason := by
    rw [(mergeContainersStep_fields ..).2.1, (mergeContainersStep_fields ..).2.2,
      (mergePrefsStep_fields ..).2.1, (mergePrefsStep_fields ..).2.2]
    exact hstep
  unfold mergeScannedProject
  rw [applyProtection_of_protected _ hQ.1]
  exact hQ

/-- Invariant of the `Refresh` fold: if the remaining scan still contains
the identifier, or the accumulator already holds a protected entry with
the carried reason, the final accumulator holds one. -/
theorem refresh_fold_protected (env : RefreshEnv)
    (old : List (String × Project)) (id : String) (ex : Project)
    (h : List.lookup id old = some ex) (hp : ex.Protected = true) :
    ∀ (scan : List Project) (acc : List (String × Project)),
      ((∃ proj ∈ scan, proj.ID = id) ∨
        (∃ q, List.lookup id acc = some q ∧ q.Protected = true ∧
          q.ProtectionReason = ex.ProtectionReason)) →
      ∃ q, List.lookup id
          (scan.foldl (fun acc proj =>
            let merged := mergeScannedProject env old proj
            mapInsert merged.ID merged acc) acc) = some q ∧
        q.Protected = true ∧ q.ProtectionReason = ex.ProtectionReason := by
  intro scan
  induction scan with
  | nil =>
    intro acc hd
    rcases hd with ⟨proj, hmem, -⟩ | hq
    · exact absurd hmem (List.not_mem_nil proj)
    · simpa using hq
  | cons proj rest ih =>
    intro acc hd
    simp only [List.foldl_cons]
    apply ih
    by_cases hid : proj.ID = id
    · have hmid : (mergeScannedProject env old proj).ID = id :=
        (mergeScannedProject_ID env old proj).trans hid
      have hl : List.lookup proj.ID old = some ex := by rw [hid]; exact h
      obtain ⟨hP, hR⟩ := mergeScannedProject_protected env old proj ex hl hp
      right
      refine ⟨mergeScannedProject env old proj, ?_, hP, hR⟩
      rw [← hmid]
      exact lookup_mapInsert_self _ _ _
    · rcases hd with ⟨proj', hmem, hpid⟩ | ⟨q, hq, hqP, hqR⟩
      · rcases List.mem_cons.mp hmem with rfl | hmem'
        · exact absurd hpid hid
        · exact Or.inl ⟨proj', hmem', hpid⟩
      · right
        refine ⟨q, ?_, hqP, hqR⟩
        have hne : id ≠ (mergeScannedProject env old proj).ID := by
          rw [mergeScannedProject_ID]
          exact fun hh => hid hh.symm
        rw [lookup_mapInsert_ne hne]
        exact hq

/-- One `Refresh` pass whose scan finds the identifier carries a protected
entry forward with its reason. -/
theorem refresh_protected (env : RefreshEnv)
    (old : List (String × Project)) (id : String) (ex : Project)
    (h : List.lookup id old = some ex) (hp : ex.Protected = true)
    (hscan : ∃ proj ∈ env.scan, proj.ID = id) :
    ∃ q, List.lookup id (Refresh env old) = some q ∧
      q.Protected = true ∧ q.ProtectionReason = ex.ProtectionReason := by
  unfold Refresh
  exact refresh_fold_protected env old id ex h hp env.scan [] (Or.inl hscan)

/-- Claim C1: protection stickiness — a project present in the map with
its protection flag true stays protected, with its protection reason
carried forward, across any number of `Refresh` passes each of whose scan
results contains the project's identifier; a refresh never clears
protection implicitly (only the explicit `SetProjectProtection` changes
it). -/
theorem protection_sticky (envs : List RefreshEnv)
    (m0 : List (String × Project)) (id : String) (p : Project)
    (h0 : List.lookup id m0 = some p) (hp : p.Protected = true)
    (hscan : ∀ env ∈ envs, ∃ proj ∈ env.scan, proj.ID = id) :
    ∃ q, List.lookup id (RefreshPasses envs m0) = some q ∧
      q.Protected = true ∧ q.ProtectionReason = p.ProtectionReason := by
  revert hscan
  induction envs generalizing m0 p with
  | nil =>
    intro _
    exact ⟨p, by simpa [RefreshPasses] using h0, hp, rfl⟩
  | cons env rest ih =>
    intro hscan
    obtain ⟨q1, hq1, hq1P, hq1R⟩ :=
      refresh_protected env m0 id p h0 hp (hscan env (by simp))
    obtain ⟨q, hq, hqP, hqR⟩ :=
      ih (Refresh env m0) q1 hq1 hq1P (fun e he => hscan e (by simp [he]))
    refine ⟨q, ?_, hqP, hqR.trans hq1R⟩
    simpa [RefreshPasses, List.foldl_cons] using hq

/-- Witness for C1: one concrete refresh pass over a map holding a
protected project whose definition file is still found by the scan. -/
theorem protection_sticky_witness :
    ∃ q, List.lookup "a1b2"
        (RefreshPasses
          [⟨[demoProject], [], none, fun _ => "web", fun _ => false⟩]
          [("a1b2", demoProtectedProject)]) = some q ∧
      q.Protected = true ∧
      q.ProtectionReason = demoProtectedProject.ProtectionReason :=
  protection_sticky
    [⟨[demoProject], [], none, fun _ => "web", fun _ => false⟩]
    [("a1b2", demoProtectedProject)] "a1b2" demoProtectedProject
    (by rfl) (by rfl)
    (by
      intro env henv
      rw [List.mem_singleton] at henv
      subst henv
      exact ⟨demoProject, by simp, rfl⟩)

end Holophyly

namespace Holophyly

/-- Right trim of a cons: the head survives unless it is a separator and
everything after it trims away. -/
theorem rtrimSeps_cons (a : Char) (t : List Char) :
    rtrimSeps (a :: t) =
      if isSepRune a = true ∧ rtrimSeps t = [] then [] else a :: rtrimSeps t := by
  unfold rtrimSeps
  rw [List.reverse_cons, List.dropWhile_append]
  by_cases h : (List.dropWhile isSepRune t.reverse).isEmpty
  · rw [if_pos h]
    have ht : (List.dropWhile isSepRune t.reverse).reverse = [] := by
      rw [List.isEmpty_iff.mp h]; rfl
    by_cases ha : isSepRune a
    · simp [List.dropWhile, ha, ht]
    · simp [List.dropWhile, ha, ht]
  · rw [if_neg h]
    have ht : (List.dropWhile isSepRune t.reverse).reverse ≠ [] := by
      intro hc
      exact h (List.isEmpty_iff.mpr (by simpa using hc))
    rw [if_neg (fun hc => ht hc.2)]
    rw [List.reverse_append]
    simp

/-- Right-trimming only drops elements. -/
theorem mem_rtrimSeps {c : Char} {l : List Char} (h : c ∈ rtrimSeps l) :
    c ∈ l := by
  unfold rtrimSeps at h
  rw [List.mem_reverse] at h
  have := (List.dropWhile_sublist (l := l.reverse) isSepRune).subset h
  simpa using this

/-- Trimming only drops elements. -/
theorem mem_trimSeps {c : Char} {l : List Char} (h : c ∈ trimSeps l) :
    c ∈ l := by
  unfold trimSeps at h
  exact (List.dropWhile_sublist isSepRune).subset (mem_rtrimSeps h)

/-- Every character the builder loop writes is in the allowed class. -/
theorem sanitizeBody_allowed (chars : List Char) :
    ∀ c ∈ sanitizeBody chars, isAllowedRune c = true := by
  intro c hc
  match chars with
  | [] => exact absurd hc (List.not_mem_nil c)
  | r :: rest =>
    unfold sanitizeBody at hc
    rcases List.mem_append.mp hc with h1 | h2
    · by_cases hr : isAlnumRune r
      · rw [if_pos hr] at h1
        rcases List.mem_singleton.mp h1 with rfl
        by_cases ha : isAllowedRune r
        · simpa [ha]
        · rw [if_neg ha]
          decide
      · rw [if_neg hr] at h1
        rcases List.mem_cons.mp h1 with rfl | h1
        · decide
        · rcases List.mem_singleton.mp h1 with rfl
          decide
    · obtain ⟨d, -, rfl⟩ := List.mem_map.mp h2
      by_cases hd : isAllowedRune d
      · simpa [hd]
      · rw [if_neg hd]
        decide

/-- A character that is not an ASCII letter or digit stays outside the
lowercase-alphanumeric class after lowering and dot replacement. -/
theorem notLetterOrDigit_alnum {r : Char} (h : isLetterOrDigit r = false) :
    isAlnumRune (dotToDash (toLowerRune r)) = false := by
  simp only [isLetterOrDigit, Bool.or_eq_false_iff, Bool.and_eq_false_iff] at h
  obtain ⟨⟨h1, h2⟩, h3⟩ := h
  have hup : ¬ ('A' ≤ r ∧ r ≤ 'Z') := by
    rintro ⟨ha, hb⟩
    rcases h2 with h2 | h2 <;> simp_all
  rw [toLowerRune, if_neg hup]
  have hlo : ¬ ('a' ≤ r ∧ r ≤ 'z') := by
    rintro ⟨ha, hb⟩
    rcases h1 with h1 | h1 <;> simp_all
  have hdig : ¬ ('0' ≤ r ∧ r ≤ '9') := by
    rintro ⟨ha, hb⟩
    rcases h3 with h3 | h3 <;> simp_all
  unfold dotToDash
  by_cases hdot : r = '.'
  · rw [if_pos hdot]; decide
  · rw [if_neg hdot]
    simp only [isAlnumRune, Bool.or_eq_false_iff, Bool.and_eq_false_iff]
    constructor
    · by_cases ha : 'a' ≤ r
      · exact Or.inr (by simpa using fun hb => hlo ⟨ha, hb⟩)
      · exact Or.inl (by simpa using ha)
    · by_cases ha : '0' ≤ r
      · exact Or.inr (by simpa using fun hb => hdig ⟨ha, hb⟩)
      · exact Or.inl (by simpa using ha)

end Holophyly

namespace Holophyly

/-- Counterexample for C6 as stated: for the input directory name `-`
(whose first character is not a letter or digit) the sanitized name is
the bare `p` — the trailing trim has eaten the dash, so the result does
not carry a leading `p-`. -/
theorem sanitizeProjectName_cex :
    isLetterOrDigit '-' = false ∧
    sanitizeProjectName "-" = "p" ∧
    (sanitizeProjectName "-").data.take 2 ≠ ['p', '-'] := by
  refine ⟨by decide, by decide, by decide⟩

/-- Claim C6 (amended): every sanitized project name consists only of
characters from `[a-z0-9_-]` and is never empty (an empty sanitization
result becomes the literal `project`); when the input's first character
is not a letter or digit the result either carries a leading `p-` or is
the bare `p` (the dash having been trimmed because everything after it
was a separator). -/
theorem sanitizeProjectName_spec (name : String) :
    (∀ c ∈ (sanitizeProjectName name).data, isAllowedRune c = true) ∧
    (sanitizeProjectName name).data ≠ [] ∧
    (∀ r rest, name.data = r :: rest → isLetterOrDigit r = false →
      sanitizeProjectName name = "p" ∨
      (sanitizeProjectName name).data.take 2 = ['p', '-']) := by
  refine ⟨?_, ?_, ?_⟩
  · intro c hc
    simp only [sanitizeProjectName] at hc
    by_cases htr :
        trimSeps (sanitizeBody ((name.data.map toLowerRune).map dotToDash)) = []
    · rw [if_pos htr] at hc
      rw [show "project".data = ['p', 'r', 'o', 'j', 'e', 'c', 't'] from rfl]
        at hc
      fin_cases hc <;> decide
    · rw [if_neg htr] at hc
      exact sanitizeBody_allowed _ c (mem_trimSeps hc)
  · simp only [sanitizeProjectName]
    by_cases htr :
        trimSeps (sanitizeBody ((name.data.map toLowerRune).map dotToDash)) = []
    · rw [if_pos htr]; decide
    · rw [if_neg htr]; exact htr
  · intro r rest hdata hld
    have hal := notLetterOrDigit_alnum hld
    have hchars : (name.data.map toLowerRune).map dotToDash =
        dotToDash (toLowerRune r) :: (rest.map toLowerRune).map dotToDash := by
      rw [hdata]; simp
    have hbody :
        sanitizeBody ((name.data.map toLowerRune).map dotToDash) =
          'p' :: '-' :: ((rest.map toLowerRune).map dotToDash).map
            (fun c => if isAllowedRune c = true then c else '-') := by
      rw [hchars]
      simp only [sanitizeBody]
      rw [if_neg (by simp [hal])]
      rfl
    have htrim :
        trimSeps (sanitizeBody ((name.data.map toLowerRune).map dotToDash)) =
          'p' :: rtrimSeps ('-' :: ((rest.map toLowerRune).map dotToDash).map
            (fun c => if isAllowedRune c = true then c else '-')) := by
      unfold trimSeps
      rw [hbody, List.dropWhile_cons, if_neg (by decide), rtrimSeps_cons,
        if_neg (by rintro ⟨hsep, -⟩; revert hsep; decide)]
    by_cases hrest :
        rtrimSeps ('-' :: ((rest.map toLowerRune).map dotToDash).map
          (fun c => if isAllowedRune c = true then c else '-')) = []
    · left
      have hfin :
          trimSeps (sanitizeBody ((name.data.map toLowerRune).map dotToDash))
            = ['p'] := by rw [htrim, hrest]
      simp only [sanitizeProjectName]
      rw [hfin]
      simp
    · right
      have hr2 :
          rtrimSeps ('-' :: ((rest.map toLowerRune).map dotToDash).map
            (fun c => if isAllowedRune c = true then c else '-')) =
          '-' :: rtrimSeps (((rest.map toLowerRune).map dotToDash).map
            (fun c => if isAllowedRune c = true then c else '-')) := by
        rcases Decidable.em (isSepRune '-' = true ∧
          rtrimSeps (((rest.map toLowerRune).map dotToDash).map
            (fun c => if isAllowedRune c = true then c else '-')) = [])
          with hcond | hcond
        · exact absurd (by rw [rtrimSeps_cons, if_pos hcond]) hrest
        · rw [rtrimSeps_cons, if_neg hcond]
      have hfin :
          trimSeps (sanitizeBody ((name.data.map toLowerRune).map dotToDash))
            = 'p' :: '-' :: rtrimSeps (((rest.map toLowerRune).map dotToDash).map
              (fun c => if isAllowedRune c = true then c else '-')) := by
        rw [htrim, hr2]
      simp only [sanitizeProjectName]
      rw [hfin, if_neg (by simp)]
      rfl

/-- Witness for C6 (amended): the name `-abc`, whose first character is
not a letter or digit, sanitizes into the allowed class, is non-empty and
carries the `p-` rendering. -/
theorem sanitizeProjectName_spec_witness :
    (∀ c ∈ (sanitizeProjectName "-abc").data, isAllowedRune c = true) ∧
    (sanitizeProjectName "-abc").data ≠ [] ∧
    (sanitizeProjectName "-abc" = "p" ∨
      (sanitizeProjectName "-abc").data.take 2 = ['p', '-']) :=
  ⟨(sanitizeProjectName_spec "-abc").1,
   (sanitizeProjectName_spec "-abc").2.1,
   (sanitizeProjectName_spec "-abc").2.2 '-' ['a', 'b', 'c'] (by rfl)
     (by decide)⟩

end Holophyly

namespace Holophyly

/-- The `projLe` is reflexive. -/
theorem projLe_refl (a : Project) : projLe a a := Or.inr ⟨rfl, le_refl _⟩

/-- The `projLe` is transitive. -/
theorem projLe_trans {a b c : Project} (h1 : projLe a b) (h2 : projLe b c) :
    projLe a c := by
  rcases h1 with h1 | ⟨e1, f1⟩ <;> rcases h2 with h2 | ⟨e2, f2⟩
  · exact Or.inl (lt_trans h1 h2)
  · exact Or.inl (by rw [← e2]; exact h1)
  · exact Or.inl (by rw [e1]; exact h2)
  · exact Or.inr ⟨e1.trans e2, le_trans f1 f2⟩

/-- An entry pair the nested loops leave alone is in order. -/
theorem swapNeeded_eq_false {a b : Project} (h : swapNeeded a b = false) :
    projLe a b := by
  simp only [swapNeeded, Bool.or_eq_false_iff, Bool.and_eq_false_iff,
    decide_eq_false_iff_not] at h
  obtain ⟨h1, h2⟩ := h
  rcases lt_or_eq_of_le (not_lt.mp h1) with hlt | heq
  · exact Or.inl hlt
  · rcases h2 with h2 | h2
    · exact absurd heq h2
    · exact Or.inr ⟨heq, not_lt.mp h2⟩

/-- An entry pair the nested loops swap is in order the other way. -/
theorem swapNeeded_eq_true {a b : Project} (h : swapNeeded a b = true) :
    projLe b a := by
  simp only [swapNeeded, Bool.or_eq_true, Bool.and_eq_true,
    decide_eq_true_eq] at h
  rcases h with h | ⟨h1, h2⟩
  · exact Or.inl h
  · exact Or.inr ⟨h1.symm, le_of_lt h2⟩

/-- One inner pass only reorders: its outputs are a permutation of its
inputs. -/
theorem bubble_perm (x : Project) (ys : List Project) :
    List.Perm ((bubble x ys).1 :: (bubble x ys).2.1) (x :: ys) := by
  induction ys generalizing x with
  | nil => simp [bubble]
  | cons y ys ih =>
    by_cases h : swapNeeded x y
    · simp only [bubble, if_pos h]
      have s1 : List.Perm ((bubble y ys).1 :: x :: (bubble y ys).2.1)
          (x :: (bubble y ys).1 :: (bubble y ys).2.1) :=
        List.Perm.swap _ _ _
      exact s1.trans ((ih y).cons x)
    · simp only [bubble, if_neg h]
      have s1 : List.Perm ((bubble x ys).1 :: y :: (bubble x ys).2.1)
          (y :: (bubble x ys).1 :: (bubble x ys).2.1) :=
        List.Perm.swap _ _ _
      have s2 : List.Perm (y :: x :: ys) (x :: y :: ys) :=
        List.Perm.swap _ _ _
      exact (s1.trans ((ih x).cons y)).trans s2

/-- One inner pass leaves, at the outer index, a minimum of the carried
element and everything after it. -/
theorem bubble_min (x : Project) (ys : List Project) :
    projLe (bubble x ys).1 x ∧
    ∀ z ∈ (bubble x ys).2.1, projLe (bubble x ys).1 z := by
  induction ys generalizing x with
  | nil =>
    simp only [bubble]
    exact ⟨projLe_refl x, by simp⟩
  | cons y ys ih =>
    by_cases h : swapNeeded x y
    · have hyx : projLe y x := swapNeeded_eq_true h
      simp only [bubble, if_pos h]
      obtain ⟨ih1, ih2⟩ := ih y
      refine ⟨projLe_trans ih1 hyx, ?_⟩
      intro z hz
      rcases List.mem_cons.mp hz with rfl | hz
      · exact projLe_trans ih1 hyx
      · exact ih2 z hz
    · have hxy : projLe x y :=
        swapNeeded_eq_false (Bool.eq_false_iff.mpr h)
      simp only [bubble, if_neg h]
      obtain ⟨ih1, ih2⟩ := ih x
      refine ⟨ih1, ?_⟩
      intro z hz
      rcases List.mem_cons.mp hz with rfl | hz
      · exact projLe_trans ih1 hxy
      · exact ih2 z hz

/-- The nested-loop sort returns a permutation of its input. -/
theorem exchangeSort_perm : (l : List Project) → List.Perm (exchangeSort l) l
  | [] => by simp [exchangeSort]
  | x :: xs => by
    have ih := exchangeSort_perm (bubble x xs).2.1
    simp only [exchangeSort]
    exact (ih.cons _).trans (bubble_perm x xs)
termination_by l => l.length
decreasing_by exact lt_of_eq_of_lt (bubble _ _).2.2 (Nat.lt_succ_self _)

/-- The nested-loop sort produces a list ordered by `projLe`. -/
theorem exchangeSort_pairwise :
    (l : List Project) → List.Pairwise projLe (exchangeSort l)
  | [] => by simp [exchangeSort]
  | x :: xs => by
    have ih := exchangeSort_pairwise (bubble x xs).2.1
    have hmin := bubble_min x xs
    simp only [exchangeSort]
    refine List.Pairwise.cons ?_ ih
    intro z hz
    exact hmin.2 z ((exchangeSort_perm (bubble x xs).2.1).mem_iff.mp hz)
termination_by l => l.length
decreasing_by exact lt_of_eq_of_lt (bubble _ _).2.2 (Nat.lt_succ_self _)

/-- Claim C7: for every iteration order of the project map's entries,
`ListProjects` returns all of them (a permutation of its input) in an
order that is ascending by project name with ties broken ascending by
definition-file name (`projLe`, a total two-key ordering). -/
theorem listProjects_sorted (l : List Project) :
    List.Perm (ListProjects l) l ∧ List.Pairwise projLe (ListProjects l) :=
  ⟨exchangeSort_perm l, exchangeSort_pairwise l⟩

end Holophyly
